import Mathlib

/-!
Shallow embedding of dgunay/flag-exorcist (flagexorcist/flag_exorcist.go):
the occurrence scanner and staleness policy in `run`, the declaration
classifier `isDeclaration`, and the history resolver `timeCommitted`.
Go machine values are modelled with Int/Nat; fallible operations with
Except/Option.
-/

/-- Go time.Time: the absolute instant in nanoseconds since the Unix epoch,
together with the zone offset (seconds east of UTC) that Format uses. -/
structure GoTime where
  ns : Int
  offset : Int
deriving Repr, DecidableEq

/-- Unix nanoseconds of Go's zero Time (January 1, year 1, 00:00:00 UTC). -/
def goZeroNs : Int := -62135596800 * 1000000000

/-- The zero value of time.Time, as produced by mo.Option.OrEmpty on a None. -/
def goZeroTime : GoTime := ⟨goZeroNs, 0⟩

/-- Go time.Time.IsZero: true exactly on the zero instant. -/
def GoTime.IsZero (t : GoTime) : Bool := t.ns == goZeroNs

/-- Go time.Time.Before: strict comparison of instants. -/
def GoTime.Before (a b : GoTime) : Bool := decide (a.ns < b.ns)

/-- Go time.Time.Add of a duration given in nanoseconds. -/
def GoTime.Add (t : GoTime) (d : Int) : GoTime := ⟨t.ns + d, t.offset⟩

/-- Calendar date (year, month, day) of a day count relative to 1970-01-01 in
the proleptic Gregorian calendar: the standard era-based civil-from-days
computation, which agrees with Go's time package date computation. -/
def civilFromDays (z0 : Int) : Int × Int × Int :=
  let z := z0 + 719468
  let era := z.fdiv 146097
  let doe := z - era * 146097
  let yoe := (doe - doe.fdiv 1460 + doe.fdiv 36524 - doe.fdiv 146096).fdiv 365
  let y := yoe + era * 400
  let doy := doe - (365 * yoe + yoe.fdiv 4 - yoe.fdiv 100)
  let mp := (5 * doy + 2).fdiv 153
  let d := doy - (153 * mp + 2).fdiv 5 + 1
  let m := if mp < 10 then mp + 3 else mp - 9
  (if m ≤ 2 then y + 1 else y, m, d)

/-- Left-pad a natural number with zeros to the given width. -/
def padNat (width : Nat) (n : Nat) : String :=
  let s := toString n
  if s.length < width then String.mk (List.replicate (width - s.length) '0') ++ s else s

/-- Two-digit zero-padded rendering of a (small) integer. -/
def pad2 (n : Int) : String := if n < 0 then "-" ++ padNat 2 n.natAbs else padNat 2 n.natAbs

/-- Four-digit zero-padded rendering of an integer (year field). -/
def pad4 (n : Int) : String := if n < 0 then "-" ++ padNat 4 n.natAbs else padNat 4 n.natAbs

/-- Go committedAt.Format with layout 2006-01-02: the calendar date, in the
time's own zone, with no time-of-day component. -/
def goFormatDate (t : GoTime) : String :=
  let secs := t.ns.fdiv 1000000000 + t.offset
  let days := secs.fdiv 86400
  let ymd := civilFromDays days
  pad4 ymd.1 ++ "-" ++ pad2 ymd.2.1 ++ "-" ++ pad2 ymd.2.2

/-- Go strings.Contains, modelled at character level (the modelled file
contents are ASCII, where byte-level and character-level agree). -/
def goContains (s sub : String) : Bool :=
  (List.range (s.toList.length + 1)).any (fun i => sub.toList.isPrefixOf (s.toList.drop i))

/-- Go strings.TrimPrefix. -/
def goTrim (s pre : String) : String :=
  if pre.toList.isPrefixOf s.toList then String.mk (s.toList.drop pre.toList.length) else s

/-- go-git object.File: the blob's in-repo name, and its contents where
Except.error models a failing Contents() call (corrupt blob / read error). -/
structure GoFile where
  name : String
  contents : Except String String
deriving Repr

/-- go-git object.Commit as timeCommitted consumes it: the result of
commit.Files() (Except.error models a failing file listing) and the commit's
Author.When timestamp. -/
structure Commit where
  files : Except String (List GoFile)
  when : GoTime
deriving Repr

/-- The iter.ForEach loop of timeCommitted over the commit sequence, with
go-git ForEach semantics: a non-nil error returned by the callback (a failing
commit.Files() or file.Contents()) aborts the remaining iteration, and
timeCommitted discards that error. The accumulator is the timestamp variable:
each commit whose blob at fileName contains the symbol overwrites it. The
inner file loop stops at the first name match (the io.EOF break). -/
def timeCommittedLoop (symbol fileName : String) : List Commit → Option GoTime → Option GoTime
  | [], acc => acc
  | c :: rest, acc =>
    match c.files with
    | Except.error _ => acc
    | Except.ok fs =>
      match fs.find? (fun f => f.name == fileName) with
      | none => timeCommittedLoop symbol fileName rest acc
      | some f =>
        match f.contents with
        | Except.error _ => acc
        | Except.ok text =>
          if goContains text symbol then
            timeCommittedLoop symbol fileName rest (some c.when)
          else
            timeCommittedLoop symbol fileName rest acc

/-- timeCommitted after repo.Log succeeded. commits is the sequence the log
iterator yields (go-git default order: DFS preorder from the current head,
so the head first and, on a linear history, newest to oldest). The occurrence
position's filename is trimmed of the repo-root prefix before comparison. -/
def timeCommittedOk (commits : List Commit) (repoPath symbol posFilename : String) : Option GoTime :=
  timeCommittedLoop symbol (goTrim posFilename (repoPath ++ "/")) commits none

/-- timeCommitted including the repo.Log call: a Log error panics, modelled as
Except.error; the mo.None return after the panic is dead code. -/
def timeCommitted (logResult : Except String (List Commit)) (repoPath symbol posFilename : String) :
    Except String (Option GoTime) :=
  match logResult with
  | Except.error e => Except.error e
  | Except.ok commits => Except.ok (timeCommittedOk commits repoPath symbol posFilename)

/-- A commit contains the symbol at the (repo-relative) path: the file listing
succeeds, a blob of that name is found, its contents read, and the symbol
occurs in them as a substring. -/
def commitMatches (fileName symbol : String) (c : Commit) : Bool :=
  match c.files with
  | Except.error _ => false
  | Except.ok fs =>
    match fs.find? (fun f => f.name == fileName) with
    | none => false
    | some f =>
      match f.contents with
      | Except.error _ => false
      | Except.ok text => goContains text symbol

/-- A reference to an ast.Ident object held inside a declaration node. Go
compares identifier pointers; ref is the object identity (distinct AST nodes
carry distinct refs). -/
structure IdentRef where
  name : String
  ref : Nat
deriving Repr, DecidableEq

/-- The declaration node an identifier's Obj.Decl points at. valueSpec is a
const/var spec with its name list; field is a struct field declaration, whose
Names list the code indexes at 0 (so the model keeps the first name apart,
matching the nonempty lists the code assumes); other covers every other node
kind, for which isDeclaration falls through to false. -/
inductive DeclNode where
  | valueSpec (names : List IdentRef)
  | field (name0 : IdentRef) (restNames : List IdentRef)
  | other
deriving Repr, DecidableEq

/-- An ast.Ident occurrence: its name, the filename of its position (what
pass.Fset.Position yields), its position (token.Pos), its object identity,
and ident.Obj.Decl (none models a nil Obj). -/
structure Ident where
  name : String
  file : String
  pos : Nat
  ref : Nat
  obj : Option DeclNode
deriving Repr, DecidableEq

/-- Index of the first pointer-equal name in a ValueSpec's name list: the
`for i, name := range parent.Names` loop, which returns at the first match. -/
def firstRefIdx (r : Nat) : List IdentRef → Nat → Option Nat
  | [], _ => none
  | n :: rest, i => if r == n.ref then some i else firstRefIdx r rest (i + 1)

/-- isDeclaration: nil Obj is not a declaration; in a const/var spec the
identifier is a declaration iff it is the first name of the list (i == 0 at
the first pointer match, false if never matched); in a struct field
declaration iff it is pointer-equal to Names[0]; any other decl kind is not a
declaration. -/
def isDeclaration (ident : Ident) : Bool :=
  match ident.obj with
  | none => false
  | some (DeclNode.valueSpec names) =>
    match firstRefIdx ident.ref names 0 with
    | some i => i == 0
    | none => false
  | some (DeclNode.field name0 _) => ident.ref == name0.ref
  | some DeclNode.other => false

/-- findFlagIdents: every identifier in preorder is appended once per
configured symbol its name equals. -/
def findFlagIdents (flagSymbols : List String) (idents : List Ident) : List Ident :=
  idents.flatMap (fun id => (flagSymbols.filter (fun symbol => id.name == symbol)).map (fun _ => id))

/-- Lookup in the declarationCommitTimes map, modelled as an association list
(insertion only happens under a hasKey guard, so the first hit is the value). -/
def lookupTime (m : List (String × GoTime)) (s : String) : Option GoTime :=
  (m.find? (fun p => p.1 == s)).map (fun p => p.2)

/-- hasKey from the source: map membership. -/
def hasKey (m : List (String × GoTime)) (s : String) : Bool := (lookupTime m s).isSome

/-- State of the classification loop in run (lines 88-99): the
declarationCommitTimes map, the usagesByFlag map (a name's collected usage
list; Go's missing key is the empty list), and, as observable instrumentation
for the resolver-call count, the list of (symbol, filename) arguments of the
timeCommitted invocations made so far. -/
structure ScanState where
  declTimes : List (String × GoTime)
  usages : String → List Ident
  calls : List (String × String)

/-- The empty state the loop starts from. -/
def initialScan : ScanState := ⟨[], fun _ => [], []⟩

/-- One iteration of the classification loop: a declaration whose name is not
yet in the map invokes the resolver and records the time if it is nonzero
(timeCommitted.OrEmpty() followed by !t.IsZero()); every other identifier is
appended to its name's usage list. -/
def scanStep (resolve : String → String → Option GoTime) (st : ScanState) (id : Ident) : ScanState :=
  if isDeclaration id && !(hasKey st.declTimes id.name) then
    let st := { st with calls := st.calls ++ [(id.name, id.file)] }
    let t := (resolve id.name id.file).getD goZeroTime
    if !(t.IsZero) then { st with declTimes := (id.name, t) :: st.declTimes } else st
  else
    { st with usages := fun n => if n == id.name then st.usages n ++ [id] else st.usages n }

/-- The whole classification loop over the identifiers in traversal order. -/
def scanPhase (resolve : String → String → Option GoTime) (idents : List Ident) (st : ScanState) :
    ScanState :=
  idents.foldl (scanStep resolve) st

/-- The resolver run actually passes to the loop: timeCommitted over the
repository's log (here after a successful repo.Log; a failing one panics,
see timeCommitted). -/
def runResolve (commits : List Commit) (repoPath : String) : String → String → Option GoTime :=
  fun symbol posFilename => timeCommittedOk commits repoPath symbol posFilename

/-- Cutoff.Hours()/24 as an exact rational (nanoseconds over a day of
nanoseconds). At the concrete cutoffs evaluated below the float64 value is
exact, so this agrees with the Go computation there. -/
def cutoffDays (cutoffNs : Int) : ℚ := mkRat cutoffNs 86400000000000

/-- Smallest exponent k ≤ fuel with den dividing 10^k, for finite-decimal
denominators. -/
def decExponent (den : Nat) : Nat → Option Nat
  | 0 => if 10 ^ (0 : Nat) % den == 0 then some 0 else none
  | fuel + 1 =>
    match decExponent den fuel with
    | some k => some k
    | none => if 10 ^ (fuel + 1) % den == 0 then some (fuel + 1) else none

/-- Go %v on a float64 holding the rational q, for finite-decimal q (the
shortest round-trip decimal of an exactly representable finite decimal is
that decimal): the digits with a decimal point inserted, no trailing zeros. -/
def goFloatV (q : ℚ) : String :=
  match decExponent q.den 30 with
  | none => toString q
  | some 0 => toString q.num
  | some k =>
    let n := q.num * Int.ofNat (10 ^ k / q.den)
    let digits := padNat (k + 1) n.natAbs
    let whole := String.mk (digits.toList.take (digits.length - k))
    let frac := String.mk (digits.toList.drop (digits.length - k))
    (if n < 0 then "-" else "") ++ whole ++ "." ++ frac

/-- The Reportf message (line 117): Flag name, introduction date in layout
2006-01-02, and Cutoff.Hours()/24 rendered by %v. -/
def mkMsg (symbol : String) (committedAt : GoTime) (cutoffNs : Int) : String :=
  "Flag '" ++ symbol ++ "', added on " ++ goFormatDate committedAt ++ ", is more than " ++
    goFloatV (cutoffDays cutoffNs) ++ " days old"

/-- A reported diagnostic: the position passed to pass.Reportf and the
formatted message. -/
structure Diag where
  pos : Nat
  msg : String
deriving Repr, DecidableEq

/-- The body of the staleness check for one symbol once time.Now() has been
read: if committedAt.Before(now.Add(-Cutoff)), one report per collected
usage, at that usage's position. -/
def checkSymbol (cutoffNs nowNs : Int) (symbol : String) (committedAt : GoTime)
    (usages : List Ident) : List Diag :=
  if committedAt.ns < nowNs - cutoffNs then
    usages.map (fun u => ⟨u.pos, mkMsg symbol committedAt cutoffNs⟩)
  else
    []

/-- Number of time.Now() reads the staleness loop performs over a symbol
order: one per symbol that is in the map and has a nonempty usage list. -/
def clockReads (declTimes : List (String × GoTime)) (usages : String → List Ident) :
    List String → Nat
  | [] => 0
  | s :: rest =>
    (match lookupTime declTimes s with
     | none => 0
     | some _ => match usages s with | [] => 0 | _ :: _ => 1) +
      clockReads declTimes usages rest

/-- The staleness loop of run (lines 102-124). order is the iteration order of
the declarationCommitTimes map range (Go map order is unspecified; when order
enumerates the map's keys every lookup succeeds, and a symbol without usages
is skipped: the map's missing-key !ok). clock gives the value of the k-th
time.Now() call — the source reads the clock afresh inside the loop for each
symbol that reaches the comparison. -/
def policyLoop (cutoffNs : Int) (clock : Nat → Int) (declTimes : List (String × GoTime))
    (usages : String → List Ident) (k : Nat) : List String → List Diag
  | [] => []
  | s :: rest =>
    match lookupTime declTimes s with
    | none => policyLoop cutoffNs clock declTimes usages k rest
    | some t =>
      match usages s with
      | [] => policyLoop cutoffNs clock declTimes usages k rest
      | us => checkSymbol cutoffNs (clock k) s t us ++
          policyLoop cutoffNs clock declTimes usages (k + 1) rest

/-- The staleness loop as the spec describes it: a single now captured once at
analysis start and used for every comparison. Stated only to be compared with
policyLoop, which reads the clock per symbol. -/
def policyLoopSingleNow (cutoffNs nowNs : Int) (declTimes : List (String × GoTime))
    (usages : String → List Ident) : List String → List Diag
  | [] => []
  | s :: rest =>
    match lookupTime declTimes s with
    | none => policyLoopSingleNow cutoffNs nowNs declTimes usages rest
    | some t =>
      match usages s with
      | [] => policyLoopSingleNow cutoffNs nowNs declTimes usages rest
      | us => checkSymbol cutoffNs nowNs s t us ++
          policyLoopSingleNow cutoffNs nowNs declTimes usages rest

/-- The whole of run after a successful repo open and log: classify the
flagged identifiers, then apply the staleness policy over the map iteration
order. -/
def runModel (commits : List Commit) (repoPath : String) (cutoffNs : Int) (clock : Nat → Int)
    (flagSymbols : List String) (idents : List Ident) (order : List String) : List Diag :=
  let st := scanPhase (runResolve commits repoPath) (findFlagIdents flagSymbols idents) initialScan
  policyLoop cutoffNs clock st.declTimes st.usages 0 order

/-- A commit whose blob at fileName is readable: the file listing succeeds
and, when a blob of that name is present, its contents read without error. -/
def commitReadOk (fileName : String) (c : Commit) : Bool :=
  match c.files with
  | Except.error _ => false
  | Except.ok fs =>
    match fs.find? (fun f => f.name == fileName) with
    | none => true
    | some f =>
      match f.contents with
      | Except.error _ => false
      | Except.ok _ => true

/-- Author timestamp of the last commit in iteration order that contains the
symbol at the path (what the overwriting timestamp variable ends up holding
on an error-free walk). -/
def lastMatchWhen (fileName symbol : String) : List Commit → Option GoTime
  | [] => none
  | c :: rest =>
    match lastMatchWhen fileName symbol rest with
    | some w => some w
    | none => if commitMatches fileName symbol c then some c.when else none

/-- Sample ValueSpec of shape var A, B = f() used to instantiate C6. -/
def abSpec : DeclNode := DeclNode.valueSpec [⟨"A", 10⟩, ⟨"B", 11⟩]

/-- The identifier A of the sample spec. -/
def identA : Ident := ⟨"A", "r/f.go", 1, 10, some abSpec⟩

/-- The identifier B of the sample spec. -/
def identB : Ident := ⟨"B", "r/f.go", 2, 11, some abSpec⟩

/-- Sample state where the introduction time of X is already recorded. -/
def stX : ScanState := ⟨[("X", ⟨0, 0⟩)], fun _ => [], []⟩

/-- A Declaration-classified occurrence of X. -/
def declX2 : Ident := ⟨"X", "r/f.go", 5, 3, some (DeclNode.valueSpec [⟨"X", 3⟩])⟩

/-- Sample introduction time 2020-01-01T00:00:00Z. -/
def t2020 : GoTime := ⟨1577836800 * 1000000000, 0⟩

/-- Two usage occurrences of X at distinct positions. -/
def usageX1 : Ident := ⟨"X", "r/f.go", 21, 4, none⟩

/-- Second usage occurrence of X. -/
def usageX2 : Ident := ⟨"X", "r/f.go", 33, 5, none⟩

/-- Usage map carrying the two usages of X. -/
def umX : String → List Ident := fun n => if n == "X" then [usageX1, usageX2] else []

/-- Commit whose only blob does not contain the symbol X. -/
def cNoMatch : Commit := ⟨Except.ok [⟨"f.go", Except.ok "nothing"⟩], ⟨1000, 0⟩⟩

/-- A blob whose contents contain the symbol X. -/
def fileX : GoFile := ⟨"f.go", Except.ok "X = true"⟩

/-- The newer commit of a two-commit linear history (iterated first), with
the smaller author timestamp — author timestamps carry no monotonicity
guarantee in git (rebases, cherry-picks, clock skew). -/
def cNewer : Commit := ⟨Except.ok [fileX], ⟨5, 0⟩⟩

/-- The older commit of that history (iterated second), with the larger
author timestamp. -/
def cOlder : Commit := ⟨Except.ok [fileX], ⟨10, 0⟩⟩

/-- Head commit of a timestamp-sorted history. -/
def cA : Commit := ⟨Except.ok [fileX], ⟨20, 0⟩⟩

/-- Parent commit of the sorted history. -/
def cB : Commit := ⟨Except.ok [fileX], ⟨7, 0⟩⟩

/-- A commit whose file listing fails. -/
def cBroken : Commit := ⟨Except.error "io", ⟨1, 0⟩⟩

/-- A readable matching commit placed after the broken one in walk order. -/
def cGood : Commit := ⟨Except.ok [fileX], ⟨2, 0⟩⟩

/-- First declaration occurrence of X (its own var spec). -/
def d1X : Ident := ⟨"X", "r/f.go", 1, 1, some (DeclNode.valueSpec [⟨"X", 1⟩])⟩

/-- Second declaration occurrence of X (a distinct var spec). -/
def d2X : Ident := ⟨"X", "r/f.go", 9, 2, some (DeclNode.valueSpec [⟨"X", 2⟩])⟩

section Helpers

lemma lookupTime_cons (n : String) (t : GoTime) (dt : List (String × GoTime)) (s : String) :
    lookupTime ((n, t) :: dt) s = if n == s then some t else lookupTime dt s := by
  by_cases h : n == s <;> simp [lookupTime, List.find?, h]

lemma hasKey_true_of_lookup (dt : List (String × GoTime)) (s : String) (t : GoTime)
    (h : lookupTime dt s = some t) : hasKey dt s = true := by
  simp [hasKey, h]

end Helpers

/-- C9: when creating the commit-log iterator fails, timeCommitted panics
(the panic propagates as the run's failure) and never returns the unknown
(None) result from the branch after the panic: that branch is dead. -/
theorem timeCommitted_panics_on_log_error :
    ∀ (e repoPath symbol posFilename : String),
      timeCommitted (Except.error e) repoPath symbol posFilename = Except.error e ∧
      ∀ v : Option GoTime,
        timeCommitted (Except.error e) repoPath symbol posFilename ≠ Except.ok v := by
  intro e repoPath symbol posFilename
  exact ⟨rfl, fun v h => by simp [timeCommitted] at h⟩

/-- C6: an identifier is classified Declaration exactly when it is the first
name of a const/var declaration list or the first field name of a struct
field declaration; in particular, in a spec of the shape var A, B = f(),
only A's occurrence is a Declaration and B's never is, whatever the names. -/
theorem isDeclaration_first_name_only :
    (∀ id : Ident, isDeclaration id = true ↔
      ((∃ names, id.obj = some (DeclNode.valueSpec names) ∧ firstRefIdx id.ref names 0 = some 0) ∨
       (∃ n0 rest, id.obj = some (DeclNode.field n0 rest) ∧ id.ref = n0.ref))) ∧
    (∀ (a b : Ident) (ra rb : IdentRef) (rest : List IdentRef),
      a.obj = some (DeclNode.valueSpec (ra :: rb :: rest)) →
      b.obj = some (DeclNode.valueSpec (ra :: rb :: rest)) →
      a.ref = ra.ref → b.ref = rb.ref → b.ref ≠ ra.ref →
      isDeclaration a = true ∧ isDeclaration b = false) := by
  constructor
  · intro id
    unfold isDeclaration
    cases hobj : id.obj with
    | none => simp
    | some dn =>
      cases dn with
      | valueSpec names =>
        cases hidx : firstRefIdx id.ref names 0 with
        | none => simp [hidx]
        | some i =>
          simp only [hidx]
          constructor
          · intro hi
            exact Or.inl ⟨names, rfl, by rw [hidx]; simp at hi; simp [hi]⟩
          · rintro (⟨names2, hn, h0⟩ | ⟨n0, rest, hn, _⟩)
            · injection hn with hn
              injection hn with hn
              subst hn
              rw [hidx] at h0
              injection h0 with h0
              simp [h0]
            · exact absurd hn (by simp)
      | field n0 rest =>
        constructor
        · intro hr
          exact Or.inr ⟨n0, rest, rfl, by simpa using hr⟩
        · rintro (⟨names2, hn, _⟩ | ⟨n0b, restb, hn, hr⟩)
          · exact absurd hn (by simp)
          · injection hn with hn
            injection hn with h1 h2
            subst h1
            simp [hr]
      | other =>
        simp
  · intro a b ra rb rest ha hb hra hrb hne
    constructor
    · simp [isDeclaration, ha, firstRefIdx, hra]
    · have hne2 : rb.ref ≠ ra.ref := hrb ▸ hne
      simp [isDeclaration, hb, firstRefIdx, hrb, hne2]

/-- Witness for C6 at the sample var A, B spec. -/
theorem isDeclaration_first_name_only_witness :
    isDeclaration identA = true ∧ isDeclaration identB = false :=
  isDeclaration_first_name_only.2 identA identB ⟨"A", 10⟩ ⟨"B", 11⟩ []
    rfl rfl rfl rfl (by decide)

/-- C10: a Declaration-classified occurrence of a name whose introduction
time is already recorded takes the else branch: it is appended to the
symbol's usage list, triggers no resolver call, leaves the map unchanged,
and when the symbol is stale it receives its own Diagnostic at the
declaration's position, exactly like a Usage occurrence. -/
theorem recorded_declaration_treated_as_usage :
    ∀ (resolve : String → String → Option GoTime) (st : ScanState) (d : Ident) (t : GoTime),
      isDeclaration d = true →
      lookupTime st.declTimes d.name = some t →
      (scanStep resolve st d).usages d.name = st.usages d.name ++ [d] ∧
      (scanStep resolve st d).calls = st.calls ∧
      (scanStep resolve st d).declTimes = st.declTimes ∧
      ∀ cutoffNs nowNs : Int,
        t.ns < nowNs - cutoffNs →
        Diag.mk d.pos (mkMsg d.name t cutoffNs) ∈
          checkSymbol cutoffNs nowNs d.name t ((scanStep resolve st d).usages d.name) := by
  intro resolve st d t hdecl hlook
  have hk : hasKey st.declTimes d.name = true := hasKey_true_of_lookup _ _ _ hlook
  have hcond : (isDeclaration d && !(hasKey st.declTimes d.name)) = false := by
    simp [hdecl, hk]
  have husage : (scanStep resolve st d).usages d.name = st.usages d.name ++ [d] := by
    simp [scanStep, hcond]
  refine ⟨husage, by simp [scanStep, hcond], by simp [scanStep, hcond], ?_⟩
  intro cutoffNs nowNs hstale
  rw [husage]
  simp only [checkSymbol, if_pos hstale]
  exact List.mem_map.mpr ⟨d, by simp, rfl⟩

/-- Witness for C10: the second declaration of X is appended to the usage
list and, X being stale, gets its own diagnostic at position 5. -/
theorem recorded_declaration_treated_as_usage_witness :
    isDeclaration declX2 = true ∧
    lookupTime stX.declTimes "X" = some ⟨0, 0⟩ ∧
    (scanStep (fun _ _ => none) stX declX2).usages "X" = [declX2] ∧
    Diag.mk 5 (mkMsg "X" ⟨0, 0⟩ 0) ∈
      checkSymbol 0 1 "X" ⟨0, 0⟩ ((scanStep (fun _ _ => none) stX declX2).usages "X") := by
  have h := recorded_declaration_treated_as_usage (fun _ _ => none) stX declX2 ⟨0, 0⟩
    (by decide) (by decide)
  refine ⟨by decide, by decide, ?_, h.2.2.2 0 1 (by decide)⟩
  show (scanStep (fun _ _ => none) stX declX2).usages declX2.name = [declX2]
  rw [h.1]
  decide

section PolicyLemmas

lemma policyLoop_nil (cut : Int) (clock : Nat → Int) (dt : List (String × GoTime))
    (um : String → List Ident) (k : Nat) : policyLoop cut clock dt um k [] = [] := rfl

lemma policyLoop_cons_none (cut : Int) (clock : Nat → Int) (dt : List (String × GoTime))
    (um : String → List Ident) (k : Nat) (s : String) (rest : List String)
    (h : lookupTime dt s = none) :
    policyLoop cut clock dt um k (s :: rest) = policyLoop cut clock dt um k rest := by
  simp [policyLoop, h]

lemma policyLoop_cons_empty (cut : Int) (clock : Nat → Int) (dt : List (String × GoTime))
    (um : String → List Ident) (k : Nat) (s : String) (rest : List String) (t : GoTime)
    (h : lookupTime dt s = some t) (hu : um s = []) :
    policyLoop cut clock dt um k (s :: rest) = policyLoop cut clock dt um k rest := by
  simp [policyLoop, h, hu]

lemma policyLoop_cons_used (cut : Int) (clock : Nat → Int) (dt : List (String × GoTime))
    (um : String → List Ident) (k : Nat) (s : String) (rest : List String) (t : GoTime)
    (u0 : Ident) (us : List Ident) (h : lookupTime dt s = some t) (hu : um s = u0 :: us) :
    policyLoop cut clock dt um k (s :: rest) =
      checkSymbol cut (clock k) s t (u0 :: us) ++ policyLoop cut clock dt um (k + 1) rest := by
  simp [policyLoop, h, hu]

lemma clockReads_cons (dt : List (String × GoTime)) (um : String → List Ident) (s : String)
    (rest : List String) :
    clockReads dt um (s :: rest) =
      (match lookupTime dt s with
       | none => 0
       | some _ => match um s with | [] => 0 | _ :: _ => 1) + clockReads dt um rest := rfl

lemma policyLoop_append (cut : Int) (clock : Nat → Int) (dt : List (String × GoTime))
    (um : String → List Ident) :
    ∀ (o1 o2 : List String) (k : Nat),
      policyLoop cut clock dt um k (o1 ++ o2) =
        policyLoop cut clock dt um k o1 ++
          policyLoop cut clock dt um (k + clockReads dt um o1) o2 := by
  intro o1
  induction o1 with
  | nil => intro o2 k; simp [policyLoop, clockReads]
  | cons s o1 ih =>
    intro o2 k
    rw [List.cons_append]
    cases h : lookupTime dt s with
    | none =>
      rw [policyLoop_cons_none cut clock dt um k s _ h,
        policyLoop_cons_none cut clock dt um k s _ h, ih, clockReads_cons]
      simp [h]
    | some t =>
      cases hu : um s with
      | nil =>
        rw [policyLoop_cons_empty cut clock dt um k s _ t h hu,
          policyLoop_cons_empty cut clock dt um k s _ t h hu, ih, clockReads_cons]
        simp [h, hu]
      | cons u0 us =>
        rw [policyLoop_cons_used cut clock dt um k s _ t u0 us h hu,
          policyLoop_cons_used cut clock dt um k s _ t u0 us h hu, ih, clockReads_cons]
        simp [h, hu, List.append_assoc]
        ring_nf

end PolicyLemmas

/-- C4: at a stale symbol's turn in the staleness loop, the loop emits
exactly one Diagnostic per collected usage occurrence, each at that usage's
own position and all carrying the same message (same introduction date),
between the diagnostics of the earlier and later turns. Staleness is judged
against the clock value the loop reads at this turn. -/
theorem stale_symbol_one_diag_per_usage :
    ∀ (cut : Int) (clock : Nat → Int) (dt : List (String × GoTime)) (um : String → List Ident)
      (o1 o2 : List String) (s : String) (t : GoTime) (usList : List Ident) (k : Nat),
      lookupTime dt s = some t →
      um s = usList →
      usList ≠ [] →
      t.ns < clock (k + clockReads dt um o1) - cut →
      policyLoop cut clock dt um k (o1 ++ s :: o2) =
        policyLoop cut clock dt um k o1 ++
          usList.map (fun u => ⟨u.pos, mkMsg s t cut⟩) ++
          policyLoop cut clock dt um (k + clockReads dt um o1 + 1) o2 := by
  intro cut clock dt um o1 o2 s t usList k hl hu hne hstale
  rw [policyLoop_append]
  cases usList with
  | nil => exact absurd rfl hne
  | cons u0 us =>
    rw [policyLoop_cons_used cut clock dt um _ s _ t u0 us hl hu]
    rw [checkSymbol, if_pos hstale]
    simp [List.append_assoc]

/-- Witness for C4: two usages of the stale symbol X yield exactly two
Diagnostics, one per usage position, citing the same introduction date. -/
theorem stale_symbol_one_diag_per_usage_witness :
    lookupTime [("X", t2020)] "X" = some t2020 ∧
    umX "X" = [usageX1, usageX2] ∧
    ([usageX1, usageX2] : List Ident) ≠ [] ∧
    t2020.ns < (fun _ : Nat => 1609459200 * 1000000000) (0 + clockReads [("X", t2020)] umX []) - 0 ∧
    policyLoop 0 (fun _ => 1609459200 * 1000000000) [("X", t2020)] umX 0 ([] ++ "X" :: []) =
      policyLoop 0 (fun _ => 1609459200 * 1000000000) [("X", t2020)] umX 0 [] ++
        ([usageX1, usageX2].map (fun u => ⟨u.pos, mkMsg "X" t2020 0⟩)) ++
        policyLoop 0 (fun _ => 1609459200 * 1000000000) [("X", t2020)] umX
          (0 + clockReads [("X", t2020)] umX [] + 1) [] := by
  refine ⟨by decide, by decide, by decide, by decide, ?_⟩
  exact stale_symbol_one_diag_per_usage 0 (fun _ => 1609459200 * 1000000000) [("X", t2020)] umX
    [] [] "X" t2020 [usageX1, usageX2] 0 (by decide) (by decide) (by decide) (by decide)

section ScanLemmas

lemma scanStep_preserves_none (resolve : String → String → Option GoTime) (s : String)
    (hz : ∀ f, ((resolve s f).getD goZeroTime).IsZero = true) (st : ScanState) (id : Ident)
    (h : lookupTime st.declTimes s = none) :
    lookupTime (scanStep resolve st id).declTimes s = none := by
  unfold scanStep
  by_cases hd : (isDeclaration id && !(hasKey st.declTimes id.name)) = true
  · simp only [hd, if_true]
    by_cases hn : id.name = s
    · subst hn
      have := hz id.file
      simp [this, h]
    · by_cases hzz : (((resolve id.name id.file).getD goZeroTime).IsZero : Bool) = true
      · simp [hzz, h]
      · simp only [Bool.not_eq_true] at hzz
        simp [hzz, lookupTime_cons, h, hn]
  · simp only [Bool.not_eq_true] at hd
    simp [hd, h]

lemma scanPhase_preserves_none (resolve : String → String → Option GoTime) (s : String)
    (hz : ∀ f, ((resolve s f).getD goZeroTime).IsZero = true) :
    ∀ (ids : List Ident) (st : ScanState),
      lookupTime st.declTimes s = none →
      lookupTime (scanPhase resolve ids st).declTimes s = none := by
  intro ids
  induction ids with
  | nil => intro st h; exact h
  | cons id rest ih =>
    intro st h
    exact ih (scanStep resolve st id) (scanStep_preserves_none resolve s hz st id h)

end ScanLemmas

/-- C5: a symbol whose introduction time the resolver never determines (the
resolver yields no timestamp — or only the zero value OrEmpty substitutes —
for every file it is asked about) is never recorded in the map, and the
staleness loop's turn for a symbol that is not in the map, or that has no
collected usages, contributes no Diagnostics and reads no clock: zero
diagnostics regardless of usages resp. age. -/
theorem unknown_or_unused_symbol_no_diags :
    (∀ (resolve : String → String → Option GoTime) (s : String),
      (∀ f, ((resolve s f).getD goZeroTime).IsZero = true) →
      ∀ (ids : List Ident) (st : ScanState),
        lookupTime st.declTimes s = none →
        lookupTime (scanPhase resolve ids st).declTimes s = none) ∧
    (∀ (cut : Int) (clock : Nat → Int) (dt : List (String × GoTime)) (um : String → List Ident)
      (k : Nat) (o1 o2 : List String) (s : String),
      (lookupTime dt s = none ∨ um s = []) →
      policyLoop cut clock dt um k (o1 ++ s :: o2) =
        policyLoop cut clock dt um k o1 ++
          policyLoop cut clock dt um (k + clockReads dt um o1) o2) := by
  constructor
  · exact fun resolve s hz ids st h => scanPhase_preserves_none resolve s hz ids st h
  · intro cut clock dt um k o1 o2 s h
    rw [policyLoop_append]
    rcases h with h | h
    · rw [policyLoop_cons_none cut clock dt um _ s _ h]
    · cases hl : lookupTime dt s with
      | none => rw [policyLoop_cons_none cut clock dt um _ s _ hl]
      | some t => rw [policyLoop_cons_empty cut clock dt um _ s _ t hl h]

/-- Witness for C5: a symbol the resolver cannot time is never recorded, and
an unused or unknown symbol's turn emits nothing. -/
theorem unknown_or_unused_symbol_no_diags_witness :
    lookupTime (scanPhase (fun _ _ => (none : Option GoTime)) [declX2] initialScan).declTimes
        "X" = none ∧
    policyLoop 0 (fun _ => 5) [("Y", t2020)] (fun _ => []) 0 ([] ++ "X" :: []) =
      policyLoop 0 (fun _ => 5) [("Y", t2020)] (fun _ => []) 0 [] ++
        policyLoop 0 (fun _ => 5) [("Y", t2020)] (fun _ => [])
          (0 + clockReads [("Y", t2020)] (fun _ => []) []) [] := by
  constructor
  · exact unknown_or_unused_symbol_no_diags.1 (fun _ _ => none) "X"
      (by intro f; show (Option.getD (none : Option GoTime) goZeroTime).IsZero = true; decide)
      [declX2] initialScan (by decide)
  · exact unknown_or_unused_symbol_no_diags.2 0 (fun _ => 5) [("Y", t2020)] (fun _ => [])
      0 [] [] "X" (Or.inl (by decide))

/-- C7 counterexample: two clock functions agreeing at analysis start (read
0) but differing at the second read produce different diagnostics, so the
staleness comparisons do not all use a single now captured once at analysis
start: time.Now() is re-read for each checked symbol. -/
theorem now_not_captured_once_counterexample :
    (fun k : Nat => if k == 0 then (20 : Int) else 5) 0 = (fun _ : Nat => (20 : Int)) 0 ∧
    policyLoop 0 (fun k => if k == 0 then 20 else 5) [("A", ⟨10, 0⟩), ("B", ⟨10, 0⟩)]
        (fun n => if n == "A" then [usageX1] else if n == "B" then [usageX2] else [])
        0 ["A", "B"] ≠
      policyLoop 0 (fun _ => 20) [("A", ⟨10, 0⟩), ("B", ⟨10, 0⟩)]
        (fun n => if n == "A" then [usageX1] else if n == "B" then [usageX2] else [])
        0 ["A", "B"] := by
  refine ⟨rfl, fun heq => absurd (congrArg List.length heq) (by decide)⟩

/-- C7 amended: when the wall clock does not change between the per-symbol
reads (a constant clock), the loop's behavior coincides with the
single-now-captured-at-start policy the spec describes. -/
theorem constant_clock_matches_single_now :
    ∀ (cut nowNs : Int) (dt : List (String × GoTime)) (um : String → List Ident) (k : Nat)
      (order : List String),
      policyLoop cut (fun _ => nowNs) dt um k order =
        policyLoopSingleNow cut nowNs dt um order := by
  intro cut nowNs dt um k order
  induction order generalizing k with
  | nil => rfl
  | cons s rest ih =>
    cases hl : lookupTime dt s with
    | none => rw [policyLoop_cons_none _ _ _ _ _ _ _ hl]; simp [policyLoopSingleNow, hl, ih]
    | some t =>
      cases hu : um s with
      | nil =>
        rw [policyLoop_cons_empty _ _ _ _ _ _ _ t hl hu]
        simp [policyLoopSingleNow, hl, hu, ih]
      | cons u0 us =>
        rw [policyLoop_cons_used _ _ _ _ _ _ _ t u0 us hl hu]
        simp [policyLoopSingleNow, hl, hu, ih]

/-- C2 counterexample: two declaration occurrences of the same symbol at the
same file invoke the history resolver twice when the first resolution yields
no timestamp — the unknown result is not cached, so the same (symbol, file)
key is recomputed within one run. -/
theorem resolver_recomputed_counterexample :
    (scanPhase (runResolve [cNoMatch] "r") [d1X, d2X] initialScan).calls =
      [("X", "r/f.go"), ("X", "r/f.go")] := by decide

section ScanSomeLemmas

lemma scanStep_preserves_some (resolve : String → String → Option GoTime) (s : String)
    (t : GoTime) (st : ScanState) (id : Ident) (h : lookupTime st.declTimes s = some t) :
    lookupTime (scanStep resolve st id).declTimes s = some t ∧
    (scanStep resolve st id).calls.filter (fun c => c.1 == s) =
      st.calls.filter (fun c => c.1 == s) := by
  unfold scanStep
  by_cases hd : (isDeclaration id && !(hasKey st.declTimes id.name)) = true
  · have hk : hasKey st.declTimes id.name = false := by
      rcases Bool.and_eq_true _ _ |>.mp hd with ⟨_, hnk⟩
      simpa using hnk
    have hn : id.name ≠ s := by
      intro hns
      rw [hns, hasKey, h] at hk
      simp at hk
    have hbeq : (id.name == s) = false := by simpa using hn
    by_cases hz : ((((resolve id.name id.file).getD goZeroTime)).IsZero : Bool) = true
    · simp [hd, hz, h, List.filter_append, hbeq]
    · simp only [Bool.not_eq_true] at hz
      simp [hd, hz, lookupTime_cons, hbeq, h, List.filter_append]
  · simp only [Bool.not_eq_true] at hd
    simp [hd, h]

lemma scanPhase_preserves_some (resolve : String → String → Option GoTime) (s : String)
    (t : GoTime) :
    ∀ (ids : List Ident) (st : ScanState),
      lookupTime st.declTimes s = some t →
      lookupTime (scanPhase resolve ids st).declTimes s = some t ∧
      (scanPhase resolve ids st).calls.filter (fun c => c.1 == s) =
        st.calls.filter (fun c => c.1 == s) := by
  intro ids
  induction ids with
  | nil => intro st h; exact ⟨h, rfl⟩
  | cons id rest ih =>
    intro st h
    have hstep := scanStep_preserves_some resolve s t st id h
    have := ih (scanStep resolve st id) hstep.1
    exact ⟨this.1, this.2.trans hstep.2⟩

end ScanSomeLemmas

/-- C2 amended: once a symbol's introduction time is recorded in
declarationCommitTimes (the resolver returned a nonzero timestamp), the
recorded value survives the rest of the classification pass unchanged and no
further resolver call is made for that symbol: the cached result is returned
without re-walking history. Resolution that yields no (or a zero) timestamp,
however, is not cached and may be recomputed (see the counterexample), and
the cache key is the symbol name alone, not the (symbol, file) pair. -/
theorem resolver_not_recomputed_once_recorded :
    ∀ (resolve : String → String → Option GoTime) (s : String) (t : GoTime)
      (ids : List Ident) (st : ScanState),
      lookupTime st.declTimes s = some t →
      lookupTime (scanPhase resolve ids st).declTimes s = some t ∧
      (scanPhase resolve ids st).calls.filter (fun c => c.1 == s) =
        st.calls.filter (fun c => c.1 == s) :=
  fun resolve s t ids st h => scanPhase_preserves_some resolve s t ids st h

/-- Witness for the amended C2: with X's time recorded, processing a further
declaration of X neither re-invokes the resolver for X nor changes the
cached value. -/
theorem resolver_not_recomputed_once_recorded_witness :
    lookupTime stX.declTimes "X" = some ⟨0, 0⟩ ∧
    lookupTime (scanPhase (runResolve [cNoMatch] "r") [d2X] stX).declTimes "X" = some ⟨0, 0⟩ ∧
    (scanPhase (runResolve [cNoMatch] "r") [d2X] stX).calls.filter (fun c => c.1 == "X") =
      stX.calls.filter (fun c => c.1 == "X") := by
  have h := resolver_not_recomputed_once_recorded (runResolve [cNoMatch] "r") "X" ⟨0, 0⟩
    [d2X] stX (by decide)
  exact ⟨by decide, h.1, h.2⟩

/-- C1 counterexample: the resolver does not return the earliest matching
commit's timestamp in general. On a two-commit history iterated head first
whose author timestamps are not monotone (git does not enforce that), the
returned introduction timestamp is 10 while the reachable head commit also
matches with the older author timestamp 5. -/
theorem resolver_monotone_counterexample :
    ¬ (∀ (commits : List Commit) (repoPath symbol posFilename : String) (T : GoTime),
        timeCommittedOk commits repoPath symbol posFilename = some T →
        ∀ c ∈ commits,
          commitMatches (goTrim posFilename (repoPath ++ "/")) symbol c = true →
          T.ns ≤ c.when.ns) := by
  intro h
  have h5 := h [cNewer, cOlder] "r" "X" "r/f.go" ⟨10, 0⟩ (by decide) cNewer
    (List.Mem.head _) (by decide)
  exact absurd h5 (by decide)

section LastMatchLemmas

lemma timeCommittedLoop_no_error (s fn : String) :
    ∀ (commits : List Commit) (acc : Option GoTime),
      (∀ c ∈ commits, commitReadOk fn c = true) →
      timeCommittedLoop s fn commits acc =
        match lastMatchWhen fn s commits with
        | some w => some w
        | none => acc := by
  intro commits
  induction commits with
  | nil => intro acc _; rfl
  | cons c rest ih =>
    intro acc h
    have hc := h c (List.Mem.head _)
    have hrest := fun c' hc' => h c' (List.Mem.tail _ hc')
    cases hf : c.files with
    | error e => simp [commitReadOk, hf] at hc
    | ok fs =>
      cases hfind : fs.find? (fun f => f.name == fn) with
      | none =>
        have hm : commitMatches fn s c = false := by simp [commitMatches, hf, hfind]
        simp only [timeCommittedLoop, hf, hfind]
        rw [ih acc hrest]
        simp only [lastMatchWhen]
        cases hlast : lastMatchWhen fn s rest with
        | some w => rfl
        | none => simp [hm]
      | some f =>
        cases hcont : f.contents with
        | error e => simp [commitReadOk, hf, hfind, hcont] at hc
        | ok text =>
          have hm : commitMatches fn s c = goContains text s := by
            simp [commitMatches, hf, hfind, hcont]
          by_cases hg : goContains text s = true
          · simp only [timeCommittedLoop, hf, hfind, hcont, hg, if_true]
            rw [ih (some c.when) hrest]
            simp only [lastMatchWhen]
            cases hlast : lastMatchWhen fn s rest with
            | some w => rfl
            | none => simp [hm, hg]
          · simp only [Bool.not_eq_true] at hg
            simp only [timeCommittedLoop, hf, hfind, hcont, hg, Bool.false_eq_true, if_false]
            rw [ih acc hrest]
            simp only [lastMatchWhen]
            cases hlast : lastMatchWhen fn s rest with
            | some w => rfl
            | none => simp [hm, hg]

lemma lastMatchWhen_some (fn s : String) :
    ∀ (commits : List Commit) (w : GoTime),
      lastMatchWhen fn s commits = some w →
      ∃ c, c ∈ commits ∧ commitMatches fn s c = true ∧ c.when = w := by
  intro commits
  induction commits with
  | nil => intro w h; exact absurd h (by simp [lastMatchWhen])
  | cons c rest ih =>
    intro w h
    rw [lastMatchWhen] at h
    cases hlast : lastMatchWhen fn s rest with
    | some w' =>
      rw [hlast] at h
      injection h with h
      obtain ⟨cm, hmem, hmatch, hwhen⟩ := ih w' hlast
      exact ⟨cm, List.Mem.tail _ hmem, hmatch, h ▸ hwhen⟩
    | none =>
      rw [hlast] at h
      by_cases hm : commitMatches fn s c = true
      · rw [if_pos hm] at h
        injection h with h
        exact ⟨c, List.Mem.head _, hm, h⟩
      · rw [if_neg hm] at h
        exact absurd h (by simp)

lemma lastMatchWhen_none (fn s : String) :
    ∀ (commits : List Commit),
      lastMatchWhen fn s commits = none →
      ∀ c ∈ commits, commitMatches fn s c = false := by
  intro commits
  induction commits with
  | nil => intro _ c hc; exact absurd hc (by simp)
  | cons c rest ih =>
    intro h c' hc'
    rw [lastMatchWhen] at h
    cases hlast : lastMatchWhen fn s rest with
    | some w => rw [hlast] at h; exact absurd h (by simp)
    | none =>
      rw [hlast] at h
      by_cases hm : commitMatches fn s c = true
      · rw [if_pos hm] at h; exact absurd h (by simp)
      · cases hc' with
        | head => simpa using hm
        | tail _ hmem => exact ih hlast c' hmem

lemma lastMatchWhen_min (fn s : String) :
    ∀ (commits : List Commit),
      commits.Pairwise (fun a b => b.when.ns ≤ a.when.ns) →
      ∀ (w : GoTime), lastMatchWhen fn s commits = some w →
        ∀ c ∈ commits, commitMatches fn s c = true → w.ns ≤ c.when.ns := by
  intro commits
  induction commits with
  | nil => intro _ w h; exact absurd h (by simp [lastMatchWhen])
  | cons c rest ih =>
    intro hsort w h c' hc' hm'
    rw [List.pairwise_cons] at hsort
    rw [lastMatchWhen] at h
    cases hlast : lastMatchWhen fn s rest with
    | some w' =>
      rw [hlast] at h
      injection h with h
      subst h
      cases hc' with
      | head =>
        obtain ⟨cm, hmem, _, hwhen⟩ := lastMatchWhen_some fn s rest w' hlast
        exact hwhen ▸ hsort.1 cm hmem
      | tail _ hmem => exact ih hsort.2 w' hlast c' hmem hm'
    | none =>
      rw [hlast] at h
      by_cases hm : commitMatches fn s c = true
      · rw [if_pos hm] at h
        injection h with h
        subst h
        cases hc' with
        | head => exact le_refl _
        | tail _ hmem => exact absurd hm' (by simp [lastMatchWhen_none fn s rest hlast c' hmem])
      · rw [if_neg hm] at h
        exact absurd h (by simp)

end LastMatchLemmas

/-- C1 amended: timeCommitted returns the author timestamp of the last
matching commit in the log iteration order. When every commit is readable
and the iteration order is sorted newest-first by author timestamp (the
common linear history with monotone clocks), that is the earliest matching
commit: the returned T is the timestamp of a reachable matching commit and
no reachable commit older than T contains the symbol at that path. -/
theorem resolver_earliest_on_sorted_history :
    ∀ (commits : List Commit) (repoPath symbol posFilename : String) (T : GoTime),
      (∀ c ∈ commits, commitReadOk (goTrim posFilename (repoPath ++ "/")) c = true) →
      commits.Pairwise (fun a b => b.when.ns ≤ a.when.ns) →
      timeCommittedOk commits repoPath symbol posFilename = some T →
      (∃ c, c ∈ commits ∧
        commitMatches (goTrim posFilename (repoPath ++ "/")) symbol c = true ∧ c.when = T) ∧
      ∀ c ∈ commits,
        commitMatches (goTrim posFilename (repoPath ++ "/")) symbol c = true →
          T.ns ≤ c.when.ns := by
  intro commits repoPath symbol posFilename T hok hsort hres
  rw [timeCommittedOk, timeCommittedLoop_no_error symbol _ commits none hok] at hres
  cases hlast : lastMatchWhen (goTrim posFilename (repoPath ++ "/")) symbol commits with
  | none => rw [hlast] at hres; exact absurd hres (by simp)
  | some w =>
    rw [hlast] at hres
    injection hres with hres
    subst hres
    exact ⟨lastMatchWhen_some _ _ commits w hlast, lastMatchWhen_min _ _ commits hsort w hlast⟩

/-- Witness for the amended C1 on a readable, timestamp-sorted two-commit
history: the result 7 is the earliest match and bounds every match. -/
theorem resolver_earliest_on_sorted_history_witness :
    (∀ c ∈ [cA, cB], commitReadOk (goTrim "r/f.go" ("r" ++ "/")) c = true) ∧
    ([cA, cB] : List Commit).Pairwise (fun a b => b.when.ns ≤ a.when.ns) ∧
    timeCommittedOk [cA, cB] "r" "X" "r/f.go" = some ⟨7, 0⟩ ∧
    ((∃ c, c ∈ [cA, cB] ∧
        commitMatches (goTrim "r/f.go" ("r" ++ "/")) "X" c = true ∧ c.when = ⟨7, 0⟩) ∧
      ∀ c ∈ [cA, cB],
        commitMatches (goTrim "r/f.go" ("r" ++ "/")) "X" c = true →
          (⟨7, 0⟩ : GoTime).ns ≤ c.when.ns) := by
  refine ⟨by decide, by decide, by decide, ?_⟩
  exact resolver_earliest_on_sorted_history [cA, cB] "r" "X" "r/f.go" ⟨7, 0⟩
    (by decide) (by decide) (by decide)

/-- C3 counterexample: a commit read error does not merely make that commit
contribute no match — the claim predicts the walk continues over the
remaining commits, which would find the later matching commit; the code
instead stops the whole walk at the erroring commit. -/
theorem per_commit_error_counterexample :
    ¬ (∀ (p rest : List Commit) (c : Commit) (e symbol fileName : String)
        (acc : Option GoTime),
        c.files = Except.error e →
        timeCommittedLoop symbol fileName (p ++ c :: rest) acc =
          timeCommittedLoop symbol fileName (p ++ rest) acc) := by
  intro h
  have hc := h [] [cGood] cBroken "io" "X" "f.go" none rfl
  exact absurd hc (by decide)

/-- C3 amended: a read error on a commit (failing file listing or failing
blob read) aborts the remainder of the history walk: the commits iterated
after it contribute nothing and the result is whatever the walk had
accumulated before the erroring commit. The discarded error never becomes a
run-level failure: with a successful log, timeCommitted always returns
Except.ok. -/
theorem read_error_aborts_walk :
    ∀ (symbol fileName : String) (p rest : List Commit) (c : Commit) (acc : Option GoTime),
      commitReadOk fileName c = false →
      timeCommittedLoop symbol fileName (p ++ c :: rest) acc =
        timeCommittedLoop symbol fileName p acc ∧
      ∀ (commits : List Commit) (repoPath posFilename : String),
        timeCommitted (Except.ok commits) repoPath symbol posFilename =
          Except.ok (timeCommittedOk commits repoPath symbol posFilename) := by
  intro symbol fileName p rest c acc hbad
  refine ⟨?_, fun commits repoPath posFilename => rfl⟩
  induction p generalizing acc with
  | nil =>
    rw [List.nil_append]
    cases hf : c.files with
    | error e => simp [timeCommittedLoop, hf]
    | ok fs =>
      cases hfind : fs.find? (fun f => f.name == fileName) with
      | none => simp [commitReadOk, hf, hfind] at hbad
      | some f =>
        cases hcont : f.contents with
        | error e => simp [timeCommittedLoop, hf, hfind, hcont]
        | ok text => simp [commitReadOk, hf, hfind, hcont] at hbad
  | cons d p ih =>
    rw [List.cons_append]
    cases hf : d.files with
    | error e => simp only [timeCommittedLoop, hf]
    | ok fs =>
      cases hfind : fs.find? (fun f => f.name == fileName) with
      | none => simp only [timeCommittedLoop, hf, hfind]; exact ih acc
      | some f =>
        cases hcont : f.contents with
        | error e => simp only [timeCommittedLoop, hf, hfind, hcont]
        | ok text =>
          by_cases hg : goContains text symbol = true
          · simp only [timeCommittedLoop, hf, hfind, hcont, hg, if_true]
            exact ih (some d.when)
          · simp only [Bool.not_eq_true] at hg
            simp only [timeCommittedLoop, hf, hfind, hcont, hg, Bool.false_eq_true, if_false]
            exact ih acc

/-- Witness for the amended C3: the walk over good ++ broken :: rest equals
the walk over the prefix before the broken commit alone. -/
theorem read_error_aborts_walk_witness :
    commitReadOk "f.go" cBroken = false ∧
    timeCommittedLoop "X" "f.go" ([cGood] ++ cBroken :: [cOlder]) none =
      timeCommittedLoop "X" "f.go" [cGood] none := by
  exact ⟨by decide, (read_error_aborts_walk "X" "f.go" [cGood] [cOlder] cBroken none
    (by decide)).1⟩

/-- C8 counterexample: with a 12-hour cutoff the emitted message reads
"... is more than 0.5 days old" — Cutoff.Hours()/24 is not a whole number of
days, refuting the claim that N is the cutoff expressed in whole days. -/
theorem message_fractional_days_counterexample :
    policyLoop 43200000000000 (fun _ => 1609459200 * 1000000000) [("X", t2020)]
        (fun n => if n == "X" then [usageX1] else []) 0 ["X"] =
      [⟨21, "Flag 'X', added on 2020-01-01, is more than 0.5 days old"⟩] ∧
    ¬ ∃ n : ℤ, cutoffDays 43200000000000 = (n : ℚ) := by
  constructor
  · decide
  · rintro ⟨n, hn⟩
    have hd : (cutoffDays 43200000000000).den = 2 := by decide
    rw [hn] at hd
    simp [Rat.den_intCast] at hd

/-- C8 amended: every emitted Diagnostic's message is exactly
Flag '<symbol>', added on <YYYY-MM-DD>, is more than <N> days old, where the
date is the recorded introduction timestamp's calendar date and N is
Cutoff.Hours()/24 — the cutoff in days, whole only when the cutoff is a
multiple of 24 hours. -/
theorem diag_message_form :
    ∀ (cut : Int) (clock : Nat → Int) (dt : List (String × GoTime)) (um : String → List Ident)
      (k : Nat) (order : List String) (d : Diag),
      d ∈ policyLoop cut clock dt um k order →
      ∃ s t, lookupTime dt s = some t ∧ (∃ u ∈ um s, d.pos = u.pos) ∧
        d.msg = mkMsg s t cut ∧
        mkMsg s t cut =
          "Flag '" ++ s ++ "', added on " ++ goFormatDate t ++ ", is more than " ++
            goFloatV (cutoffDays cut) ++ " days old" := by
  intro cut clock dt um k order
  induction order generalizing k with
  | nil => intro d hd; exact absurd hd (by simp [policyLoop])
  | cons s rest ih =>
    intro d hd
    cases hl : lookupTime dt s with
    | none =>
      rw [policyLoop_cons_none _ _ _ _ _ _ _ hl] at hd
      exact ih k d hd
    | some t =>
      cases hu : um s with
      | nil =>
        rw [policyLoop_cons_empty _ _ _ _ _ _ _ t hl hu] at hd
        exact ih k d hd
      | cons u0 us =>
        rw [policyLoop_cons_used _ _ _ _ _ _ _ t u0 us hl hu] at hd
        rcases List.mem_append.mp hd with hleft | hright
        · rw [checkSymbol] at hleft
          by_cases hstale : t.ns < clock k - cut
          · rw [if_pos hstale] at hleft
            obtain ⟨u, hu0, hud⟩ := List.mem_map.mp hleft
            refine ⟨s, t, hl, ⟨u, hu ▸ hu0, ?_⟩, ?_, rfl⟩
            · rw [← hud]
            · rw [← hud]
          · rw [if_neg hstale] at hleft
            exact absurd hleft (by simp)
        · exact ih (k + 1) d hright

/-- Witness for the amended C8 at a concrete emitted diagnostic. -/
theorem diag_message_form_witness :
    (⟨21, mkMsg "X" t2020 0⟩ : Diag) ∈
        policyLoop 0 (fun _ => 1609459200 * 1000000000) [("X", t2020)] umX 0 ["X"] ∧
    ∃ s t, lookupTime [("X", t2020)] s = some t ∧
      (∃ u ∈ umX s, (⟨21, mkMsg "X" t2020 0⟩ : Diag).pos = u.pos) ∧
      (⟨21, mkMsg "X" t2020 0⟩ : Diag).msg = mkMsg s t 0 ∧
      mkMsg s t 0 =
        "Flag '" ++ s ++ "', added on " ++ goFormatDate t ++ ", is more than " ++
          goFloatV (cutoffDays 0) ++ " days old" := by
  refine ⟨by decide, ?_⟩
  exact diag_message_form 0 (fun _ => 1609459200 * 1000000000) [("X", t2020)] umX 0 ["X"]
    ⟨21, mkMsg "X" t2020 0⟩ (by decide)
